import Mathlib

/-!
Verification of the 4subs media-identity and subtitle-matching core.

This file shallowly embeds the Go source of the repository into Lean:
pure functions become Lean functions over List Char / String, the sqlite
store becomes explicit list-of-rows state passing, and the points where
the code touches the outside world (filesystem walking, HTTP catalog
responses, JSON codec) become oracle parameters supplied to the embedded
functions.  Go strings are modelled as lists of characters; the inputs
relevant to the claims are ASCII, so the ASCII fragment of the Go
unicode functions is used.  float64 scores are modelled as rationals:
every score the code computes here is an exact small rational.
-/

namespace FourSubs

/-! ### Go string primitives (strings.TrimSpace, ToLower, Fields, ...) -/

/-- Whitespace set of Go unicode.IsSpace restricted to ASCII:
tab, newline, vertical tab, form feed, carriage return, space. -/
def goIsSpace (c : Char) : Bool :=
  c = ' ' || c = '\t' || c = '\n' || c = Char.ofNat 11 || c = Char.ofNat 12 || c = '\r'

/-- strings.TrimSpace on a character list: drop whitespace from both ends. -/
def goTrim (l : List Char) : List Char :=
  ((l.dropWhile goIsSpace).reverse.dropWhile goIsSpace).reverse

/-- strings.TrimSpace on a String. -/
def goTrimStr (s : String) : String :=
  (goTrim s.toList).asString

/-- strings.ToLower (ASCII fragment, matching the language labels and
codes the repository handles). -/
def goToLower (l : List Char) : List Char :=
  l.map Char.toLower

/-- toLowerTrim from internal/provider/provider.go:
strings.ToLower(strings.TrimSpace(s)). -/
def toLowerTrim (s : String) : String :=
  (goToLower (goTrim s.toList)).asString

/-- strings.Contains: pat occurs as a contiguous substring of the list. -/
def containsSub (pat : List Char) : List Char → Bool
  | [] => pat.isEmpty
  | c :: tl => pat.isPrefixOf (c :: tl) || containsSub pat tl

namespace Provider

/-- ScoreByLanguage from internal/provider/provider.go: first list entry
equal to the language under toLowerTrim wins and scores
(len - index) * 10; otherwise unknown/empty scores 1, anything else 3. -/
def ScoreByLanguage (priority : List String) (lang : String) : ℚ :=
  match priority.findIdx? (fun item => toLowerTrim item == toLowerTrim lang) with
  | some i => ((priority.length : ℚ) - (i : ℚ)) * 10
  | none =>
      if toLowerTrim lang = "unknown" || toLowerTrim lang = "" then 1 else 3

/-- containsAny from internal/provider/provider.go: true when value
contains any of the lower-cased non-empty terms as a substring
(value itself must be non-empty). -/
def containsAny (value : List Char) (terms : List (List Char)) : Bool :=
  terms.any (fun t =>
    decide (¬t = []) && decide (¬value = []) &&
      containsSub (goToLower (goTrim t)) value)

/-- NormalizeLanguage from internal/provider/provider.go.  The two CJK
marker terms (the characters for simplified and traditional) are kept as
single-codepoint terms exactly as in the source. -/
def NormalizeLanguage (raw : String) : String × String :=
  let r := goToLower (goTrim raw.toList)
  if containsAny r [['双', '语'], "bilingual".toList, "chs&eng".toList,
      "zh-en".toList, "en-zh".toList, "dual".toList] then ("bilingual", raw)
  else if containsAny r [['简'], "zh-cn".toList, "chs".toList, "simplified".toList] then
    ("zh-cn", raw)
  else if containsAny r [['繁'], "zh-tw".toList, "cht".toList, "traditional".toList] then
    ("zh-tw", raw)
  else if containsAny r ["english".toList, "eng".toList, "en".toList] then ("en", raw)
  else if r = [] then ("unknown", "")
  else (r.asString, raw)

end Provider

/-! ### Filename metadata parsing (internal/scanner/scanner.go) -/

/-- Numeric value of an ASCII digit character. -/
def digitVal (c : Char) : ℕ :=
  c.toNat - 48

/-- ASCII digit character for a value below ten. -/
def digitChar (n : ℕ) : Char :=
  Char.ofNat (48 + n)

/-- strconv.Itoa helper, peeling decimal digits from the right; fuel is
an upper bound on the number of digits so the recursion is structural
(fuel = n always suffices). -/
def natToCharsAux : ℕ → ℕ → List Char → List Char
  | 0, n, acc => digitChar n :: acc
  | fuel + 1, n, acc =>
      if n < 10 then digitChar n :: acc
      else natToCharsAux fuel (n / 10) (digitChar (n % 10) :: acc)

/-- strconv.Itoa for a natural number: decimal digit characters. -/
def natToChars (n : ℕ) : List Char :=
  natToCharsAux n n []

/-- strings.Fields helper: split on Go whitespace, accumulating the
current word in reverse. -/
def goFieldsAux : List Char → List Char → List (List Char)
  | [], cur => if cur.isEmpty then [] else [cur.reverse]
  | c :: tl, cur =>
      if goIsSpace c then
        if cur.isEmpty then goFieldsAux tl [] else cur.reverse :: goFieldsAux tl []
      else goFieldsAux tl (c :: cur)

/-- strings.Fields: the whitespace-separated words of a string. -/
def goFields (l : List Char) : List (List Char) :=
  goFieldsAux l []

/-- strings.Join(strings.Fields(l), " "): collapse runs of whitespace to
single spaces and trim the ends. -/
def collapseSpaces (l : List Char) : List Char :=
  List.intercalate [' '] (goFields l)

/-- The separator replacement of parseMetadata: dots, underscores and
hyphens become spaces. -/
def sepToSpace (c : Char) : Char :=
  if c = '.' ∨ c = '_' ∨ c = '-' then ' ' else c

/-- filepath.Ext together with strings.TrimSuffix: the filename with its
extension (final dot onward) removed; unchanged when it has no dot. -/
def trimExtension (l : List Char) : List Char :=
  if l.any (fun c => c = '.') then
    ((l.reverse.dropWhile (fun c => ¬c = '.')).drop 1).reverse
  else l

/-- Separator class of the episode pattern: [.\s_\-] with \s taken as
the Go regexp perl class [\t\n\f\r ]. -/
def isSepChar (c : Char) : Bool :=
  c = '.' || c = ' ' || c = '\t' || c = '\n' || c = Char.ofNat 12 || c = '\r' ||
    c = '_' || c = '-'

/-- Letter e of the episode pattern, case-insensitive. -/
def isEChar (c : Char) : Bool :=
  c = 'e' || c = 'E'

/-- Episode-number part of the episode pattern: one or two digits,
greedily two; the trailing optional separator cannot fail. -/
def epiDigits (season : ℕ) : List Char → Option (ℕ × ℕ)
  | [] => none
  | [a] => if a.isDigit then some (season, digitVal a) else none
  | a :: b :: _ =>
      if a.isDigit then
        if b.isDigit then some (season, digitVal a * 10 + digitVal b)
        else some (season, digitVal a)
      else none

/-- Season part of the episode pattern after the s: one or two digits
(greedily two, backtracking to one) followed by e/E, then the episode
digits. -/
def seasonDigits : List Char → Option (ℕ × ℕ)
  | a :: b :: c :: tl =>
      if a.isDigit then
        if b.isDigit then
          if isEChar c then epiDigits (digitVal a * 10 + digitVal b) tl
          else if isEChar b then epiDigits (digitVal a) (c :: tl)
          else none
        else if isEChar b then epiDigits (digitVal a) (c :: tl)
        else none
      else none
  | _ => none

/-- Attempt of the episode pattern at the current position: separator,
s/S, then the season and episode digit groups. -/
def epTryAt : List Char → Option (ℕ × ℕ)
  | sep :: sc :: rest =>
      if isSepChar sep && (sc = 's' || sc = 'S') then seasonDigits rest else none
  | _ => none

/-- Leftmost match of the episode pattern, scanning positions left to
right; yields the match start index with season and episode numbers. -/
def epFindAux : List Char → ℕ → Option (ℕ × ℕ × ℕ)
  | [], _ => none
  | c :: tl, i =>
      match epTryAt (c :: tl) with
      | some (se, ep) => some (i, se, ep)
      | none => epFindAux tl (i + 1)

/-- Word character of the Go regexp \b boundary: [0-9A-Za-z_]. -/
def isWordChar (c : Char) : Bool :=
  c.isAlpha || c.isDigit || c = '_'

/-- Attempt of the year pattern at the current position: word boundary,
19 or 20, two digits, word boundary.  prev is the character before the
position (none at the start of the string). -/
def yearTryAt (prev : Option Char) : List Char → Option ℕ
  | a :: b :: c :: d :: rest =>
      if (match prev with | none => true | some pc => ¬isWordChar pc) &&
          ((a = '1' && b = '9') || (a = '2' && b = '0')) &&
          c.isDigit && d.isDigit &&
          (match rest with | [] => true | e :: _ => ¬isWordChar e) then
        some (digitVal a * 1000 + digitVal b * 100 + digitVal c * 10 + digitVal d)
      else none
  | _ => none

/-- Leftmost match of the year pattern. -/
def yearFindAux (prev : Option Char) : List Char → Option ℕ
  | [] => none
  | c :: tl =>
      match yearTryAt prev (c :: tl) with
      | some y => some y
      | none => yearFindAux (some c) tl

/-- strings.ReplaceAll helper: skip counts characters still to consume
from a matched occurrence before scanning resumes, keeping the recursion
structural on the string. -/
def replaceAllAux (pat rep : List Char) : List Char → ℕ → List Char
  | [], _ => []
  | _ :: tl, skip + 1 => replaceAllAux pat rep tl skip
  | a :: tl, 0 =>
      if decide (¬pat = []) && pat.isPrefixOf (a :: tl) then
        rep ++ replaceAllAux pat rep tl (pat.length - 1)
      else a :: replaceAllAux pat rep tl 0

/-- strings.ReplaceAll with a non-empty pattern: every non-overlapping
occurrence of pat, scanning left to right, is replaced by rep.  (The
parser only calls it with a non-empty year pattern; for an empty pat
this model leaves the string unchanged.) -/
def replaceAllChars (pat rep l : List Char) : List Char :=
  replaceAllAux pat rep l 0

namespace Scanner

/-- Output of parseMetadata. -/
structure ParsedMeta where
  mediaType : String
  title : String
  year : Option ℕ
  season : Option ℕ
  episode : Option ℕ
deriving DecidableEq, Repr

/-- The normalized form of an extension-stripped filename: separators
replaced by spaces, whitespace collapsed. -/
def normalizedName (filename : String) : List Char :=
  collapseSpaces ((trimExtension filename.toList).map sepToSpace)

/-- The space-padded string the episode pattern is matched against:
" " + normalized + " ". -/
def paddedName (filename : String) : List Char :=
  ' ' :: (normalizedName filename ++ [' '])

/-- The title before year stripping: the trimmed text up to the episode
marker when one is found and that text is non-empty, else the whole
normalized string. -/
def titleBase (filename : String) : List Char :=
  match epFindAux (paddedName filename) 0 with
  | some (idx, _, _) =>
      let cleaned := goTrim ((paddedName filename).take idx)
      if ¬cleaned = [] then cleaned else normalizedName filename
  | none => normalizedName filename

/-- parseMetadata from internal/scanner/scanner.go: strip the extension,
normalize separators to single spaces, detect the episode marker on the
space-padded string and the year token, derive the title by cutting at
the episode marker, strip the year digits, and fall back to the
extension-stripped name when the title ends up empty. -/
def parseMetadata (filename : String) : ParsedMeta :=
  let epMatch := epFindAux (paddedName filename) 0
  let year := yearFindAux none (normalizedName filename)
  let title2 :=
    match year with
    | some y => goTrim (replaceAllChars (natToChars y) [] (titleBase filename))
    | none => titleBase filename
  let title3 := if title2 = [] then trimExtension filename.toList else title2
  { mediaType := if epMatch.isSome then "episode" else "movie"
    title := title3.asString
    year := year
    season := epMatch.map (fun m => m.2.1)
    episode := epMatch.map (fun m => m.2.2) }

/-! #### Filesystem scan (Run from internal/scanner/scanner.go) -/

/-- Recognized video extensions (videoExtSet). -/
def videoExtSet : List String :=
  [".mkv", ".mp4", ".avi", ".mov", ".wmv", ".flv", ".m4v", ".ts", ".m2ts", ".webm"]

/-- Recognized subtitle sidecar extensions (subtitleExtSet). -/
def subtitleExtSet : List String :=
  [".srt", ".ass", ".ssa", ".vtt", ".sub"]

/-- filepath.Ext: the suffix from the final dot on; empty when the name
has no dot. -/
def extOf (l : List Char) : List Char :=
  if l.any (fun c => c = '.') then
    '.' :: (l.reverse.takeWhile (fun c => ¬c = '.')).reverse
  else []

/-- One visit of the filepath.WalkDir callback: the entry path, its base
name, whether it is a directory, and the walk error handed to the
callback for this entry (none when the entry is readable). -/
structure WalkEvent where
  path : String
  name : String
  isDir : Bool
  walkErr : Option String
deriving DecidableEq, Repr

/-- Oracle view of the filesystem during one scan: os.Stat success per
root, the sequence of WalkDir callback visits per root, filepath.Abs
resolution (none models its error, in which case the code keeps the
original path), and the filepath.Glob result used by hasLocalSubtitle
(none models a Glob error). -/
structure FSModel where
  statOk : String → Bool
  walk : String → List WalkEvent
  absResolve : String → Option String
  glob : String → Option (List String)

/-- filepath.IsAbs: the path begins with a slash. -/
def isAbsPath (s : String) : Bool :=
  match s.toList with
  | '/' :: _ => true
  | _ => false

/-- hasLocalSubtitle from internal/scanner/scanner.go: glob the video
base name in its directory and report whether any match carries a
subtitle extension; a Glob error yields false. -/
def hasLocalSubtitle (fs : FSModel) (videoPath : String) : Bool :=
  match fs.glob videoPath with
  | none => false
  | some ms =>
      ms.any (fun m => subtitleExtSet.contains (goToLower (extOf m.toList)).asString)

/-- The identity record the scan emits per accepted video file
(model.MediaItem as filled in by Run). -/
structure MediaItemRec where
  mediaType : String
  title : String
  year : Option ℕ
  season : Option ℕ
  episode : Option ℕ
  filePath : String
  hasSubtitle : Bool
deriving DecidableEq, Repr

/-- Accumulated state of the walk closure: emitted items and the set of
canonical paths already seen in this run. -/
structure ScanState where
  items : List MediaItemRec
  pathSeen : List String
deriving DecidableEq, Repr

/-- The canonical path of an entry: the entry path when absolute, else
the filepath.Abs resolution, keeping the original on resolution error. -/
def absPathOf (fs : FSModel) (ev : WalkEvent) : String :=
  if isAbsPath ev.path then ev.path
  else
    match fs.absResolve ev.path with
    | some r => r
    | none => ev.path

/-- The identity record built for an accepted walk entry. -/
def mkItemFromEvent (fs : FSModel) (ev : WalkEvent) : MediaItemRec :=
  let m := parseMetadata ev.name
  { mediaType := m.mediaType
    title := m.title
    year := m.year
    season := m.season
    episode := m.episode
    filePath := absPathOf fs ev
    hasSubtitle := hasLocalSubtitle fs ev.path }

/-- The WalkDir callback of Run: swallow walk errors, skip directories
and non-video extensions, deduplicate by canonical path, emit an
identity record; the error it returns to WalkDir is always none. -/
def walkFn (fs : FSModel) (st : ScanState) (ev : WalkEvent) : ScanState × Option String :=
  if ev.walkErr.isSome then (st, none)
  else if ev.isDir then (st, none)
  else if ¬videoExtSet.contains (goToLower (extOf ev.name.toList)).asString then (st, none)
  else if st.pathSeen.contains (absPathOf fs ev) then (st, none)
  else
    ({ items := st.items ++ [mkItemFromEvent fs ev]
       pathSeen := st.pathSeen ++ [absPathOf fs ev] }, none)

/-- filepath.WalkDir over the visit sequence of one root: fold the
callback, stopping at the first error the callback returns. -/
def walkDirModel (fs : FSModel) : List WalkEvent → ScanState → ScanState × Option String
  | [], st => (st, none)
  | ev :: tl, st =>
      match walkFn fs st ev with
      | (st2, some e) => (st2, some e)
      | (st2, none) => walkDirModel fs tl st2

/-- scanner.Result. -/
structure ScanResult where
  Items : List MediaItemRec
  ScannedVideoFiles : ℕ
  MissingSubtitleFiles : ℕ
deriving DecidableEq, Repr

/-- Lexicographic Go string comparison on character lists. -/
def charListLt : List Char → List Char → Bool
  | [], [] => false
  | [], _ :: _ => true
  | _ :: _, [] => false
  | a :: as, b :: bs => if a < b then true else if b < a then false else charListLt as bs

/-- Total order used to model sort.Slice with less = path i < path j. -/
def charListLe (a b : List Char) : Bool :=
  !charListLt b a

/-- The final sort.Slice of Run: items ordered by file path. -/
def sortItemsByPath (items : List MediaItemRec) : List MediaItemRec :=
  items.insertionSort
    (fun a b => charListLe a.filePath.toList b.filePath.toList = true)

/-- The per-root loop of Run: trim each root, silently skip empty roots
and roots whose os.Stat fails, walk the rest, and wrap a walk error with
the root path. -/
def runRoots (fs : FSModel) : List String → ScanState → Except String ScanState
  | [], st => Except.ok st
  | root :: rest, st =>
      let r := goTrimStr root
      if r = "" then runRoots fs rest st
      else if ¬fs.statOk r then runRoots fs rest st
      else
        match walkDirModel fs (fs.walk r) st with
        | (st2, none) => runRoots fs rest st2
        | (_, some e) => Except.error ("scan path " ++ r ++ ": " ++ e)

/-- Run from internal/scanner/scanner.go: process all roots, then sort
the collected items by path and count the files missing subtitles. -/
def Run (fs : FSModel) (paths : List String) : Except String ScanResult :=
  match runRoots fs paths { items := [], pathSeen := [] } with
  | Except.error e => Except.error e
  | Except.ok st =>
      let sorted := sortItemsByPath st.items
      Except.ok
        { Items := sorted
          ScannedVideoFiles := sorted.length
          MissingSubtitleFiles := (sorted.filter (fun it => ¬it.hasSubtitle)).length }

end Scanner

/-- Concrete filesystem for the C4 analysis: root /a contains a good
video, an entry whose walk visit reports an error, and another good
video; sibling root /b contains one good video. -/
def fsWalkErr : Scanner.FSModel where
  statOk := fun r => r = "/a" || r = "/b"
  walk := fun r =>
    if r = "/a" then
      [{ path := "/a/x.mkv", name := "x.mkv", isDir := false, walkErr := none },
       { path := "/a/bad.mkv", name := "bad.mkv", isDir := false, walkErr := some "io error" },
       { path := "/a/z.mkv", name := "z.mkv", isDir := false, walkErr := none }]
    else if r = "/b" then
      [{ path := "/b/y.mkv", name := "y.mkv", isDir := false, walkErr := none }]
    else []
  absResolve := fun _ => none
  glob := fun _ => some []

/-! ### Context derivation model (server handleSearchSubtitles goroutines) -/

/-- Go context values as a derivation tree: a context is the root
Background, the request-scoped context handed to an HTTP handler, or a
derived context produced by context.WithTimeout / context.WithCancel on
a parent. -/
inductive GoCtx where
  | background : GoCtx
  | requestScoped : GoCtx
  | withTimeoutCtx : GoCtx → ℕ → GoCtx
  | withCancelCtx : GoCtx → GoCtx
deriving DecidableEq, Repr

/-- The chain of contexts whose cancellation reaches a context: itself
and, transitively, the parents it was derived from. -/
def ctxAncestors : GoCtx → List GoCtx
  | GoCtx.background => [GoCtx.background]
  | GoCtx.requestScoped => [GoCtx.requestScoped]
  | GoCtx.withTimeoutCtx p s => GoCtx.withTimeoutCtx p s :: ctxAncestors p
  | GoCtx.withCancelCtx p => GoCtx.withCancelCtx p :: ctxAncestors p

/-- Cancellation of parent propagates to child exactly when parent is in
the ancestor chain of child. -/
def derivedFromCtx (child parent : GoCtx) : Bool :=
  (ctxAncestors child).contains parent

/-- The context each per-provider search goroutine of
handleSearchSubtitles runs under.  Translated from the goroutine body:
ctx, cancel := context.WithTimeout(context.Background(), 25*time.Second).
The request context of the handler (the argument) is not consulted. -/
def searchTaskCtx (_requestCtx : GoCtx) : GoCtx :=
  GoCtx.withTimeoutCtx GoCtx.background 25

/-! ### Base64 (encoding/base64 StdEncoding) and the credential vault -/

/-- The standard base64 alphabet. -/
def b64Chars : List Char :=
  ['A', 'B', 'C', 'D', 'E', 'F', 'G', 'H', 'I', 'J', 'K', 'L', 'M',
   'N', 'O', 'P', 'Q', 'R', 'S', 'T', 'U', 'V', 'W', 'X', 'Y', 'Z',
   'a', 'b', 'c', 'd', 'e', 'f', 'g', 'h', 'i', 'j', 'k', 'l', 'm',
   'n', 'o', 'p', 'q', 'r', 's', 't', 'u', 'v', 'w', 'x', 'y', 'z',
   '0', '1', '2', '3', '4', '5', '6', '7', '8', '9', '+', '/']

/-- Alphabet character of a six-bit group. -/
def b64Char (n : ℕ) : Char :=
  b64Chars.getD n 'A'

/-- Six-bit group of an alphabet character; none outside the alphabet. -/
def b64Index (c : Char) : Option ℕ :=
  b64Chars.findIdx? (fun x => x == c)

/-- base64.StdEncoding.EncodeToString over bytes (naturals below 256):
three bytes become four alphabet characters, a final group of one or two
bytes is padded with =. -/
def b64EncodeChars : List ℕ → List Char
  | [] => []
  | [b1] => [b64Char (b1 / 4), b64Char (b1 % 4 * 16), '=', '=']
  | [b1, b2] =>
      [b64Char (b1 / 4), b64Char (b1 % 4 * 16 + b2 / 16), b64Char (b2 % 16 * 4), '=']
  | b1 :: b2 :: b3 :: rest =>
      b64Char (b1 / 4) :: b64Char (b1 % 4 * 16 + b2 / 16) ::
        b64Char (b2 % 16 * 4 + b3 / 64) :: b64Char (b3 % 64) :: b64EncodeChars rest

/-- base64.StdEncoding.DecodeString: four characters at a time, padding
accepted only in the final group; anything else fails. -/
def b64DecodeChars : List Char → Option (List ℕ)
  | [] => some []
  | a :: b :: c :: d :: rest =>
      if c = '=' ∧ d = '=' ∧ rest = [] then
        match b64Index a, b64Index b with
        | some x, some y => some [x * 4 + y / 16]
        | _, _ => none
      else if d = '=' ∧ rest = [] then
        match b64Index a, b64Index b, b64Index c with
        | some x, some y, some z => some [x * 4 + y / 16, y % 16 * 16 + z / 4]
        | _, _, _ => none
      else
        match b64Index a, b64Index b, b64Index c, b64Index d, b64DecodeChars rest with
        | some x, some y, some z, some w, some rest2 =>
            some ((x * 4 + y / 16) :: (y % 16 * 16 + z / 4) :: (z % 4 * 64 + w) :: rest2)
        | _, _, _, _, _ => none
  | _ => none

namespace Server

/-- encrypt from the server package, blank-secret branch: the blob is
"plain:" followed by the base64 of the plaintext.  The non-blank branch
derives an AES-GCM key by SHA-256 and seals under a crypto/rand nonce;
that effectful path is outside this pure model and is represented by
none. -/
def encrypt (plaintext : List ℕ) (secret : String) : Option (List Char) :=
  if goTrimStr secret = "" then some ("plain:".toList ++ b64EncodeChars plaintext)
  else none

/-- The plain: branch of parseCredentialBlob up to the decoded payload
bytes: trim the blob, strip the plain: marker, base64-decode. -/
def decodePlainBlob (blob : List Char) : Option (List ℕ) :=
  let trimmed := goTrim blob
  if "plain:".toList.isPrefixOf trimmed then
    b64DecodeChars (trimmed.drop "plain:".toList.length)
  else none

end Server

/-! ### Provider search capabilities and the search orchestrator -/

/-- strconv.FormatInt base 10 on integers. -/
def intToChars (n : ℤ) : List Char :=
  if n < 0 then '-' :: natToChars n.natAbs else natToChars n.natAbs

/-- fmt %02d: left-pad the decimal rendering with zeros to width two. -/
def pad2 (n : ℤ) : List Char :=
  let s := intToChars n
  if s.length < 2 then '0' :: s else s

/-- provider.SearchInput. -/
structure SearchInput where
  mediaID : ℤ
  title : String
  mediaType : String
  year : Option ℤ
  season : Option ℤ
  episode : Option ℤ
  filePath : String
  limit : ℤ
deriving DecidableEq, Repr

/-- model.SubtitleCandidate as the providers fill it in.  The raw
payload snapshot is the JSON rendering of the upstream item; JSON
serialization is external to this model, so the field is kept opaque as
the empty string. -/
structure SubtitleCandidate where
  mediaItemID : ℤ
  providerName : String
  candidateID : String
  title : String
  releaseName : String
  language : String
  languageText : String
  score : ℚ
  details : String
  rawPayload : String
  downloadURL : String
  expiresAt : Option ℕ
deriving DecidableEq, Repr

/-- Go map indexing with the zero value: the value bound to the key, or
the empty string. -/
def lookupField (m : List (String × String)) (k : String) : String :=
  match m.find? (fun p => p.1 == k) with
  | some p => p.2
  | none => ""

/-- firstNonEmpty from the provider packages: the first value that is
non-empty after trimming, itself trimmed. -/
def firstNonEmpty : List String → String
  | [] => ""
  | v :: rest => if ¬goTrimStr v = "" then goTrimStr v else firstNonEmpty rest

/-- Bytes rendered as a Go string (ASCII fragment). -/
def bytesToString (l : List ℕ) : String :=
  (l.map (fun b => Char.ofNat b)).asString

namespace Assrt

/-- One item of the assrt catalog response (subItem). -/
structure SubItem where
  id : ℤ
  nativeName : String
  videoName : String
  langDesc : String
  voteScore : ℚ
  detail : String
deriving DecidableEq, Repr

/-- The assrt search response (searchResponse). -/
structure SearchResponse where
  status : ℤ
  subs : List SubItem
deriving DecidableEq, Repr

/-- The q parameter built by assrt Client.Search: trimmed title, a
space-S%02dE%02d token for episode items with both numbers, then the
year when known. -/
def query (input : SearchInput) : String :=
  let q := goTrimStr input.title
  let q :=
    if input.mediaType = "episode" then
      match input.season, input.episode with
      | some s, some e => q ++ " S" ++ (pad2 s).asString ++ "E" ++ (pad2 e).asString
      | _, _ => q
    else q
  match input.year with
  | some y => q ++ " " ++ (intToChars y).asString
  | none => q

/-- The cnt request parameter of assrt Client.Search: the requested
result-count cap, defaulting to 20 when non-positive.  It is only sent
to the catalog; the response is not truncated against it. -/
def cnt (input : SearchInput) : ℤ :=
  if input.limit ≤ 0 then 20 else input.limit

/-- Normalization of one assrt response item into a SubtitleCandidate. -/
def mkCandidate (languagePriority : List String) (mediaID : ℤ) (inputTitle : String)
    (item : SubItem) : SubtitleCandidate :=
  let norm := Provider.NormalizeLanguage item.langDesc
  { mediaItemID := mediaID
    providerName := "assrt"
    candidateID := (intToChars item.id).asString
    title := firstNonEmpty [item.nativeName, item.videoName, inputTitle]
    releaseName := item.videoName
    language := norm.1
    languageText := norm.2
    score := Provider.ScoreByLanguage languagePriority norm.1 + item.voteScore
    details := item.detail
    rawPayload := ""
    downloadURL := ""
    expiresAt := none }

/-- assrt Client.Search up to the HTTP boundary: token and query
validation, then the oracle-supplied catalog response is checked for
status 0 and every response item is normalized — without any client-side
truncation at the requested cap. -/
def Search (languagePriority : List String) (credential : List (String × String))
    (input : SearchInput) (httpResp : Except String SearchResponse) :
    Except String (List SubtitleCandidate) :=
  let token := goTrimStr (lookupField credential "token")
  if token = "" then Except.error "assrt token is empty"
  else
    let q := query input
    if q = "" then Except.error "empty search query"
    else
      match httpResp with
      | Except.error e => Except.error e
      | Except.ok payload =>
          if ¬payload.status = 0 then Except.error "assrt status"
          else Except.ok (payload.subs.map (mkCandidate languagePriority input.mediaID input.title))

end Assrt

namespace OpenSubtitles

/-- One file entry of an opensubtitles response item. -/
structure OSFile where
  fileID : ℤ
  fileName : String
deriving DecidableEq, Repr

/-- One item of the opensubtitles response (searchItem). -/
structure OSItem where
  id : String
  language : String
  release : String
  downloadCount : ℤ
  fromTrusted : Bool
  files : List OSFile
  featureTitle : String
  featureYear : ℤ
deriving DecidableEq, Repr

/-- The opensubtitles search response (searchResponse). -/
structure SearchResponse where
  data : List OSItem
deriving DecidableEq, Repr

/-- The query parameter of opensubtitles Client.Search: trimmed title
plus the S%02dE%02d token for episode items; the year goes into a
separate request parameter, not into the query. -/
def query (input : SearchInput) : String :=
  let q := goTrimStr input.title
  if input.mediaType = "episode" then
    match input.season, input.episode with
    | some s, some e => q ++ " S" ++ (pad2 s).asString ++ "E" ++ (pad2 e).asString
    | _, _ => q
  else q

/-- Bearer-token resolution of opensubtitles Client.Search: log in only
when both username and password are present; a login failure falls back
to the empty token (search proceeds without it). -/
def resolveToken (credential : List (String × String))
    (loginResp : Except String String) : String :=
  let username := goTrimStr (lookupField credential "username")
  let password := goTrimStr (lookupField credential "password")
  if ¬username = "" ∧ ¬password = "" then
    match loginResp with
    | Except.ok t => t
    | Except.error _ => ""
  else ""

/-- Normalization of one opensubtitles response item. -/
def mkCandidate (languagePriority : List String) (mediaID : ℤ) (inputTitle : String)
    (item : OSItem) : SubtitleCandidate :=
  let norm := Provider.NormalizeLanguage item.language
  let candidateID :=
    match item.files with
    | f :: _ => if 0 < f.fileID then (intToChars f.fileID).asString else goTrimStr item.id
    | [] => goTrimStr item.id
  let releaseName :=
    if item.release = "" then
      match item.files with
      | f :: _ => f.fileName
      | [] => ""
    else item.release
  { mediaItemID := mediaID
    providerName := "opensubtitles"
    candidateID := candidateID
    title := firstNonEmpty [item.featureTitle, inputTitle]
    releaseName := releaseName
    language := norm.1
    languageText := norm.2
    score := Provider.ScoreByLanguage languagePriority norm.1 +
      (item.downloadCount : ℚ) / 200 + (if item.fromTrusted then 2 else 0)
    details := ("downloads=".toList ++ intToChars item.downloadCount ++
      " trusted=".toList ++ (if item.fromTrusted then "true" else "false").toList).asString
    rawPayload := ""
    downloadURL := ""
    expiresAt := none }

/-- opensubtitles Client.Search up to the HTTP boundary: api_key and
query validation, optional login, then the oracle-supplied response is
truncated at the requested cap (default 20) and every remaining item is
normalized. -/
def Search (languagePriority : List String) (credential : List (String × String))
    (input : SearchInput) (loginResp : Except String String)
    (httpResp : Except String SearchResponse) :
    Except String (List SubtitleCandidate) :=
  let apiKey := goTrimStr (lookupField credential "api_key")
  if apiKey = "" then Except.error "opensubtitles api_key is empty"
  else
    let _token := resolveToken credential loginResp
    let q := query input
    if q = "" then Except.error "empty search query"
    else
      match httpResp with
      | Except.error e => Except.error e
      | Except.ok payload =>
          let limit := if input.limit ≤ 0 then 20 else input.limit
          let data :=
            if limit < (payload.data.length : ℤ) then payload.data.take limit.toNat
            else payload.data
          Except.ok (data.map (mkCandidate languagePriority input.mediaID input.title))

end OpenSubtitles

namespace Db

/-! ### Repository.UpsertMediaItems (db repository) -/

/-- A row of the media_items table.  Timestamps are abstract instants;
time.Now of one call is a single value now used for created_at and
updated_at. -/
structure MediaRow where
  id : ℕ
  mediaType : String
  title : String
  year : Option ℤ
  season : Option ℤ
  episode : Option ℤ
  filePath : String
  mediaHash : String
  hasSubtitle : Bool
  createdAt : ℕ
  updatedAt : ℕ
deriving DecidableEq, Repr

/-- The fields of a model.MediaItem consumed by the upsert. -/
structure MediaItemIn where
  mediaType : String
  title : String
  year : Option ℤ
  season : Option ℤ
  episode : Option ℤ
  filePath : String
  mediaHash : String
  hasSubtitle : Bool
deriving DecidableEq, Repr

/-- mediaExistsByPathTx: is there a row with this file path. -/
def mediaExistsByPath (db : List MediaRow) (path : String) : Bool :=
  db.any (fun r => r.filePath = path)

/-- AUTOINCREMENT id for a fresh row. -/
def nextMediaID (db : List MediaRow) : ℕ :=
  db.foldl (fun m r => max m r.id) 0 + 1

/-- The INSERT ... ON CONFLICT(file_path) DO UPDATE statement: update
every mutable field of the row with the conflicting path in place
(id and created_at kept), or append a fresh row. -/
def upsertOne (now : ℕ) (db : List MediaRow) (item : MediaItemIn) : List MediaRow :=
  if mediaExistsByPath db item.filePath then
    db.map (fun r =>
      if r.filePath = item.filePath then
        { r with
          mediaType := item.mediaType
          title := item.title
          year := item.year
          season := item.season
          episode := item.episode
          mediaHash := item.mediaHash
          hasSubtitle := item.hasSubtitle
          updatedAt := now }
      else r)
  else
    db ++ [{ id := nextMediaID db
             mediaType := item.mediaType
             title := item.title
             year := item.year
             season := item.season
             episode := item.episode
             filePath := item.filePath
             mediaHash := item.mediaHash
             hasSubtitle := item.hasSubtitle
             createdAt := now
             updatedAt := now }]

/-- The loop of Repository.UpsertMediaItems: check existence first, run
the upsert statement, and attribute its one affected row to the updated
count when the path existed before, else to the inserted count. -/
def upsertLoop (now : ℕ) : List MediaItemIn → List MediaRow → ℕ → ℕ → List MediaRow × ℕ × ℕ
  | [], db, ins, upd => (db, ins, upd)
  | item :: rest, db, ins, upd =>
      let existed := mediaExistsByPath db item.filePath
      upsertLoop now rest (upsertOne now db item)
        (if existed then ins else ins + 1)
        (if existed then upd + 1 else upd)

/-- Repository.UpsertMediaItems: the whole item list processed in one
transaction, returning the new table state with the inserted and
updated counts. -/
def UpsertMediaItems (now : ℕ) (db : List MediaRow) (items : List MediaItemIn) :
    List MediaRow × ℕ × ℕ :=
  upsertLoop now items db 0 0

/-- The file paths present in the table. -/
def pathsOf (db : List MediaRow) : List String :=
  db.map (fun r => r.filePath)

/-- A sample identity record used to instantiate the upsert theorems. -/
def sampleItem : MediaItemIn :=
  { mediaType := "movie", title := "Movie Name", year := some 2010,
    season := none, episode := none, filePath := "/m/Movie.Name.2010.mkv",
    mediaHash := "", hasSubtitle := false }

/-! #### Repository.ReplaceSubtitleCandidates -/

/-- Repository.ReplaceSubtitleCandidates: within one transaction, delete
every subtitle_candidates row of the media item, then insert the given
candidates in order, stamped with the mediaID argument.  The table is a
row list of (media_item_id, candidate) pairs. -/
def ReplaceSubtitleCandidates (mediaID : ℤ) (candidates : List SubtitleCandidate)
    (db : List (ℤ × SubtitleCandidate)) : List (ℤ × SubtitleCandidate) :=
  db.filter (fun row => ¬row.1 = mediaID) ++ candidates.map (fun c => (mediaID, c))

/-- The candidate set persisted for one media item. -/
def candidatesFor (mediaID : ℤ) (db : List (ℤ × SubtitleCandidate)) :
    List SubtitleCandidate :=
  (db.filter (fun row => row.1 = mediaID)).map (fun row => row.2)

end Db

namespace Server

/-! #### handleSearchSubtitles and parseCredentialBlob -/

/-- parseCredentialBlob from the server package.  The JSON codec and the
AES decryption of enc: payloads are external effects, supplied as the
oracle functions jsonParse (Unmarshal into a string map; none on
malformed input) and decryptFn (the decrypt function on the enc:
payload and the deployment secret). -/
def parseCredentialBlob (jsonParse : String → Option (List (String × String)))
    (decryptFn : String → String → Except String String)
    (blob : String) (secret : String) (providerName : String) :
    Except String (List (String × String)) :=
  let trimmed := goTrimStr blob
  if trimmed = "" then Except.ok []
  else if "plain:".toList.isPrefixOf trimmed.toList then
    match b64DecodeChars (trimmed.toList.drop "plain:".toList.length) with
    | none => Except.error "illegal base64 data"
    | some payload =>
        match jsonParse (bytesToString payload) with
        | some m =>
            if ¬m = [] then Except.ok m
            else if providerName = "assrt" then
              Except.ok [("token", bytesToString payload)]
            else Except.error "invalid plain credential payload"
        | none =>
            if providerName = "assrt" then Except.ok [("token", bytesToString payload)]
            else Except.error "invalid plain credential payload"
  else if "enc:".toList.isPrefixOf trimmed.toList then
    match decryptFn (trimmed.toList.drop "enc:".toList.length).asString secret with
    | Except.error e => Except.error e
    | Except.ok payload =>
        match jsonParse payload with
        | some m =>
            if ¬m = [] then Except.ok m
            else Except.error "invalid encrypted credential payload"
        | none => Except.error "invalid encrypted credential payload"
  else
    let parsed :=
      if "\x7b".toList.isPrefixOf trimmed.toList then
        match jsonParse trimmed with
        | some m => if ¬m = [] then some m else none
        | none => none
      else none
    match parsed with
    | some m => Except.ok m
    | none =>
        if providerName = "assrt" then Except.ok [("token", trimmed)]
        else Except.error "unsupported credential format"

/-- One entry of the fan-in channel of handleSearchSubtitles. -/
structure ProviderResult where
  name : String
  candidates : List SubtitleCandidate
  err : Option String
deriving DecidableEq, Repr

/-- The fan-in collection loop of handleSearchSubtitles: concatenate the
candidate lists of error-free results in arrival order, and record one
error-map entry per failed result. -/
def collectResults (results : List ProviderResult) :
    List SubtitleCandidate × List (String × String) :=
  (results.foldl (fun acc r =>
      match r.err with
      | some _ => acc
      | none => acc ++ r.candidates) [],
   results.foldl (fun acc r =>
      match r.err with
      | some e => acc ++ [(r.name, e)]
      | none => acc) [])

/-- The final sort.Slice of handleSearchSubtitles: candidates ordered by
descending score. -/
def sortByScoreDesc (l : List SubtitleCandidate) : List SubtitleCandidate :=
  l.insertionSort (fun a b => b.score ≤ a.score)

/-- The tail of handleSearchSubtitles after the fan-in: sort all
collected candidates by descending score, replace the persisted
candidate set of the media item with them, and report the sorted list
with the per-provider error map. -/
def searchAndPersist (results : List ProviderResult) (mediaID : ℤ)
    (db : List (ℤ × SubtitleCandidate)) :
    List (ℤ × SubtitleCandidate) × List SubtitleCandidate × List (String × String) :=
  let all := (collectResults results).1
  let errs := (collectResults results).2
  let sorted := sortByScoreDesc all
  (Db.ReplaceSubtitleCandidates mediaID sorted db, sorted, errs)

/-- The world as seen by one handleSearchSubtitles call: the stored
credential blob per provider (GetProviderCredentialBlob, an error models
a failed lookup), the JSON codec, and the two catalog transports. -/
structure SearchOracle where
  assrtBlob : Except String String
  osBlob : Except String String
  jsonParse : String → Option (List (String × String))
  assrtHTTP : Except String Assrt.SearchResponse
  osLogin : Except String String
  osHTTP : Except String OpenSubtitles.SearchResponse

/-- The provider loop of handleSearchSubtitles, for one client: a blob
fetch or credential parse failure contributes an error entry, an empty
credential map is skipped silently, otherwise the search capability runs
and its outcome is reported. -/
def runOneProvider (name : String) (blobRes : Except String String)
    (jsonParse : String → Option (List (String × String)))
    (decryptFn : String → String → Except String String) (secret : String)
    (searchFn : List (String × String) → Except String (List SubtitleCandidate)) :
    List ProviderResult :=
  match blobRes with
  | Except.error e => [{ name := name, candidates := [], err := some e }]
  | Except.ok blob =>
      match parseCredentialBlob jsonParse decryptFn blob secret name with
      | Except.error e => [{ name := name, candidates := [], err := some e }]
      | Except.ok credential =>
          if credential.length = 0 then []
          else
            match searchFn credential with
            | Except.ok cands => [{ name := name, candidates := cands, err := none }]
            | Except.error e => [{ name := name, candidates := [], err := some e }]

/-- The fan-out of handleSearchSubtitles over the fixed client list
[assrt, opensubtitles], collected in one deterministic arrival order
(the persisted set and the error map are order-insensitive). -/
def runProviders (oracle : SearchOracle)
    (decryptFn : String → String → Except String String) (secret : String)
    (languagePriority : List String) (input : SearchInput) : List ProviderResult :=
  runOneProvider "assrt" oracle.assrtBlob oracle.jsonParse decryptFn secret
    (fun cred => Assrt.Search languagePriority cred input oracle.assrtHTTP) ++
  runOneProvider "opensubtitles" oracle.osBlob oracle.jsonParse decryptFn secret
    (fun cred => OpenSubtitles.Search languagePriority cred input oracle.osLogin oracle.osHTTP)

/-- handleSearchSubtitles from the media item fields on: build the
search input with the hard-coded cap of 20, fan out over the providers,
and persist the merged sorted list. -/
def handleSearchSubtitles (oracle : SearchOracle)
    (decryptFn : String → String → Except String String) (secret : String)
    (languagePriority : List String) (mediaID : ℤ) (title mediaType : String)
    (year season episode : Option ℤ) (filePath : String)
    (db : List (ℤ × SubtitleCandidate)) :
    List (ℤ × SubtitleCandidate) × List SubtitleCandidate × List (String × String) :=
  let input : SearchInput :=
    { mediaID := mediaID, title := title, mediaType := mediaType, year := year,
      season := season, episode := episode, filePath := filePath, limit := 20 }
  searchAndPersist (runProviders oracle decryptFn secret languagePriority input) mediaID db

end Server

/-- A stale persisted candidate, present before the searches of the C1
and C2 analyses run. -/
def staleCand : SubtitleCandidate :=
  { mediaItemID := 1, providerName := "assrt", candidateID := "old",
    title := "Old", releaseName := "", language := "zh-cn", languageText := "chs",
    score := 12, details := "", rawPayload := "", downloadURL := "", expiresAt := none }

/-- A persisted candidate of an unrelated media item. -/
def otherCand : SubtitleCandidate :=
  { mediaItemID := 2, providerName := "opensubtitles", candidateID := "keep",
    title := "Keep", releaseName := "", language := "en", languageText := "en",
    score := 3, details := "", rawPayload := "", downloadURL := "", expiresAt := none }

/-- The candidate table before the C1 counterexample search: one stale
row for media item 1 and one row of media item 2. -/
def c1DB : List (ℤ × SubtitleCandidate) :=
  [(1, staleCand), (2, otherCand)]

/-- The oracle of the C1 counterexample search: assrt configured through
a legacy bare-token blob, opensubtitles unconfigured (empty blob); the
JSON codec rejects everything and the transports are never reached. -/
def c1Oracle : Server.SearchOracle :=
  { assrtBlob := Except.ok "legacytoken"
    osBlob := Except.ok ""
    jsonParse := fun _ => none
    assrtHTTP := Except.ok { status := 0, subs := [] }
    osLogin := Except.error "unused"
    osHTTP := Except.ok { data := [] } }

/-- A decrypt stub for runs whose blobs never carry the enc: marker. -/
def c1Decrypt : String → String → Except String String :=
  fun _ _ => Except.error "unused"

/-- The assrt catalog response of the C8 counterexample: status 0 with
six items, more than the requested cap. -/
def c8Resp : Assrt.SearchResponse :=
  { status := 0
    subs := [1, 2, 3, 4, 5, 6].map (fun i =>
      { id := i, nativeName := "n", videoName := "v", langDesc := "chs",
        voteScore := 0, detail := "" }) }

/-- The search input of the C8 counterexample: cap of five results. -/
def c8Input : SearchInput :=
  { mediaID := 1, title := "Movie", mediaType := "movie", year := none,
    season := none, episode := none, filePath := "/m/m.mkv", limit := 5 }

/-- The opensubtitles response used to instantiate the C8 amended
theorem: four items against a cap of three. -/
def c8RespOS : OpenSubtitles.SearchResponse :=
  { data := [1, 2, 3, 4].map (fun i =>
      { id := (intToChars i).asString, language := "en", release := "r",
        downloadCount := 0, fromTrusted := false, files := [],
        featureTitle := "T", featureYear := 2010 }) }

/-- The search input for the C8 witness: cap of three results. -/
def c8InputOS : SearchInput :=
  { mediaID := 1, title := "Movie", mediaType := "movie", year := none,
    season := none, episode := none, filePath := "/m/m.mkv", limit := 3 }

/-- The opensubtitles output list of the C8 witness run, extracted from
the Search result. -/
def c8OutOS : List SubtitleCandidate :=
  match OpenSubtitles.Search ["zh-cn"] [("api_key", "k")] c8InputOS
      (Except.ok "tok") (Except.ok c8RespOS) with
  | Except.ok l => l
  | Except.error _ => []

/-- Fan-in sequences used to instantiate the C2 theorem: one successful
provider and one failed provider. -/
def c2Results : List Server.ProviderResult :=
  [{ name := "assrt", candidates := [staleCand], err := none },
   { name := "opensubtitles", candidates := [], err := some "timeout" }]

end FourSubs

open FourSubs

/-- A successful findIdx? starting at s returns an index below s plus
the list length. -/
theorem findIdx?_some_lt_aux {α : Type} (p : α → Bool) :
    ∀ (l : List α) (s i : ℕ), List.findIdx? p l s = some i → i < s + l.length := by
  intro l
  induction l with
  | nil => intro s i h; simp [List.findIdx?] at h
  | cons a tl ih =>
      intro s i h
      rw [List.findIdx?_cons] at h
      by_cases hp : p a
      · rw [if_pos hp] at h
        injection h with h
        subst h
        simp [List.length_cons]
      · rw [if_neg hp] at h
        have := ih (s + 1) i h
        simp only [List.length_cons]
        omega

/-- A successful findIdx? always returns an index inside the list. -/
theorem findIdx?_some_lt_length {α : Type} (p : α → Bool) (l : List α) (i : ℕ)
    (h : l.findIdx? p = some i) : i < l.length := by
  have := findIdx?_some_lt_aux p l 0 i h
  omega

/-- C3: ScoreByLanguage returns (len - i) * 10 for the first
case-insensitive hit at index i of the priority list, 1 for
unknown/empty codes, 3 otherwise; the documented examples evaluate as
stated, and every prioritized language strictly outranks every
non-prioritized one. -/
theorem scoreByLanguage_spec :
    (∀ (priority : List String) (lang : String) (i : ℕ),
        priority.findIdx? (fun item => toLowerTrim item == toLowerTrim lang) = some i →
        Provider.ScoreByLanguage priority lang = ((priority.length : ℚ) - (i : ℚ)) * 10 ∧
          i < priority.length)
  ∧ (∀ (priority : List String) (lang : String),
        priority.findIdx? (fun item => toLowerTrim item == toLowerTrim lang) = none →
        Provider.ScoreByLanguage priority lang =
          if toLowerTrim lang = "unknown" ∨ toLowerTrim lang = "" then 1 else 3)
  ∧ Provider.ScoreByLanguage ["bilingual", "zh-cn", "zh-tw"] "zh-cn" = 20
  ∧ Provider.ScoreByLanguage ["bilingual", "zh-cn", "zh-tw"] "en" = 3
  ∧ Provider.ScoreByLanguage ["bilingual", "zh-cn", "zh-tw"] "unknown" = 1
  ∧ (∀ (priority : List String) (l1 l2 : String) (i : ℕ),
        priority.findIdx? (fun item => toLowerTrim item == toLowerTrim l1) = some i →
        priority.findIdx? (fun item => toLowerTrim item == toLowerTrim l2) = none →
        Provider.ScoreByLanguage priority l2 < Provider.ScoreByLanguage priority l1) := by
  have hsome : ∀ (priority : List String) (lang : String) (i : ℕ),
      priority.findIdx? (fun item => toLowerTrim item == toLowerTrim lang) = some i →
      Provider.ScoreByLanguage priority lang = ((priority.length : ℚ) - (i : ℚ)) * 10 ∧
        i < priority.length := by
    intro priority lang i h
    refine ⟨?_, findIdx?_some_lt_length _ _ _ h⟩
    simp only [Provider.ScoreByLanguage, h]
  have hnone : ∀ (priority : List String) (lang : String),
      priority.findIdx? (fun item => toLowerTrim item == toLowerTrim lang) = none →
      Provider.ScoreByLanguage priority lang =
        if toLowerTrim lang = "unknown" ∨ toLowerTrim lang = "" then 1 else 3 := by
    intro priority lang h
    simp only [Provider.ScoreByLanguage, h]
    by_cases hu : toLowerTrim lang = "unknown" ∨ toLowerTrim lang = ""
    · rw [if_pos hu, if_pos (by simpa using hu)]
    · rw [if_neg hu, if_neg (by simpa using hu)]
  refine ⟨hsome, hnone, by simp +decide [Provider.ScoreByLanguage]; norm_num,
    by simp +decide [Provider.ScoreByLanguage],
    by simp +decide [Provider.ScoreByLanguage], ?_⟩
  intro priority l1 l2 i h1 h2
  obtain ⟨hv1, hi⟩ := hsome priority l1 i h1
  have hv2 := hnone priority l2
  have hle : Provider.ScoreByLanguage priority l2 ≤ 3 := by
    rw [hv2 h2]
    by_cases hu : toLowerTrim l2 = "unknown" ∨ toLowerTrim l2 = ""
    · rw [if_pos hu]; norm_num
    · rw [if_neg hu]
  have hge : (10 : ℚ) ≤ Provider.ScoreByLanguage priority l1 := by
    rw [hv1]
    have : (i : ℚ) + 1 ≤ (priority.length : ℚ) := by
      exact_mod_cast Nat.succ_le_of_lt hi
    nlinarith
  linarith

/-- Witness for C3 at the documented concrete priority list. -/
theorem scoreByLanguage_spec_witness :
    Provider.ScoreByLanguage ["bilingual", "zh-cn", "zh-tw"] "zh-cn" =
      (((["bilingual", "zh-cn", "zh-tw"] : List String).length : ℚ) - ((1 : ℕ) : ℚ)) * 10 ∧
    (1 : ℕ) < (["bilingual", "zh-cn", "zh-tw"] : List String).length :=
  scoreByLanguage_spec.1 ["bilingual", "zh-cn", "zh-tw"] "zh-cn" 1 (by decide)

/-- C9 counterexample: the per-provider search task context is not
derived from the request-scoped context, so cancelling the caller
context does not reach the task. -/
theorem searchTaskCtx_not_derived_from_request :
    derivedFromCtx (searchTaskCtx GoCtx.requestScoped) GoCtx.requestScoped = false := by
  decide

/-- C9 amended: each per-provider search task runs under a fresh
25-second timeout context whose only ancestors are itself and
context.Background, independently of the request context; hence
cancellation of any other context, the request-scoped one included,
does not propagate to the task. -/
theorem searchTaskCtx_spec :
    (∀ r : GoCtx, searchTaskCtx r = GoCtx.withTimeoutCtx GoCtx.background 25)
  ∧ (∀ r : GoCtx, ctxAncestors (searchTaskCtx r) =
      [GoCtx.withTimeoutCtx GoCtx.background 25, GoCtx.background])
  ∧ (∀ r c : GoCtx, c ≠ GoCtx.background →
      c ≠ GoCtx.withTimeoutCtx GoCtx.background 25 →
      derivedFromCtx (searchTaskCtx r) c = false) := by
  refine ⟨fun _ => rfl, fun _ => rfl, ?_⟩
  intro r c h1 h2
  simp only [derivedFromCtx, searchTaskCtx, ctxAncestors]
  simp [List.contains_cons, h1, h2]

/-- Witness for the C9 amended theorem at the request-scoped context. -/
theorem searchTaskCtx_spec_witness :
    derivedFromCtx (searchTaskCtx GoCtx.requestScoped)
      (GoCtx.withCancelCtx GoCtx.requestScoped) = false :=
  searchTaskCtx_spec.2.2 GoCtx.requestScoped (GoCtx.withCancelCtx GoCtx.requestScoped)
    (by decide) (by decide)

/-- C7 counterexample: for the filename "_2010_.mkv" the year 2010 is
detected and the stripped title is empty, but the parser falls back to
the raw extension-stripped name "_2010_", not to the normalized name
"2010" the claim requires. -/
theorem parseMetadata_fallback_counterexample :
    (Scanner.parseMetadata "_2010_.mkv").year = some 2010 ∧
    goTrim (replaceAllChars (natToChars 2010) [] (Scanner.titleBase "_2010_.mkv")) = [] ∧
    (Scanner.parseMetadata "_2010_.mkv").title = "_2010_" ∧
    (Scanner.normalizedName "_2010_.mkv").asString = "2010" ∧
    ¬(Scanner.parseMetadata "_2010_.mkv").title = (Scanner.normalizedName "_2010_.mkv").asString := by
  decide

/-- C7 amended: when a year token is detected, the year digits are
removed from the derived title by substring replacement and the result
whitespace-trimmed; if that leaves an empty title, the parser falls back
to the raw extension-stripped filename (which in general differs from
the separator-normalized form). -/
theorem parseMetadata_year_strip_spec (filename : String) (y : ℕ)
    (hy : (Scanner.parseMetadata filename).year = some y) :
    (goTrim (replaceAllChars (natToChars y) [] (Scanner.titleBase filename)) = [] →
      (Scanner.parseMetadata filename).title = (trimExtension filename.toList).asString)
  ∧ (¬goTrim (replaceAllChars (natToChars y) [] (Scanner.titleBase filename)) = [] →
      (Scanner.parseMetadata filename).title =
        (goTrim (replaceAllChars (natToChars y) [] (Scanner.titleBase filename))).asString) := by
  have hy2 : yearFindAux none (Scanner.normalizedName filename) = some y := hy
  constructor
  · intro hemp
    simp only [Scanner.parseMetadata, hy2, hemp, if_pos]
  · intro hne
    simp only [Scanner.parseMetadata, hy2]
    rw [if_neg hne]

/-- Witness for C7 amended at a filename whose stripped title is
non-empty. -/
theorem parseMetadata_year_strip_spec_witness :
    (Scanner.parseMetadata "Movie.Name.2010.mkv").title =
      (goTrim (replaceAllChars (natToChars 2010) [] (Scanner.titleBase "Movie.Name.2010.mkv"))).asString :=
  (parseMetadata_year_strip_spec "Movie.Name.2010.mkv" 2010 (by decide)).2 (by decide)

/-- The scan callback never returns an error to WalkDir: every branch
yields none. -/
theorem walkFn_no_error (fs : Scanner.FSModel) (st : Scanner.ScanState)
    (ev : Scanner.WalkEvent) : (Scanner.walkFn fs st ev).2 = none := by
  simp only [Scanner.walkFn]
  repeat' split
  all_goals rfl

/-- The walk of one root therefore never surfaces an error. -/
theorem walkDirModel_no_error (fs : Scanner.FSModel) :
    ∀ (evs : List Scanner.WalkEvent) (st : Scanner.ScanState),
      (Scanner.walkDirModel fs evs st).2 = none := by
  intro evs
  induction evs with
  | nil => intro st; rfl
  | cons ev tl ih =>
      intro st
      have hne := walkFn_no_error fs st ev
      rcases hw : Scanner.walkFn fs st ev with ⟨st2, e⟩
      rw [hw] at hne
      subst hne
      simp only [Scanner.walkDirModel, hw]
      exact ih st2

/-- The per-root loop always succeeds. -/
theorem runRoots_ok (fs : Scanner.FSModel) :
    ∀ (paths : List String) (st : Scanner.ScanState),
      ∃ st2, Scanner.runRoots fs paths st = Except.ok st2 := by
  intro paths
  induction paths with
  | nil => intro st; exact ⟨st, rfl⟩
  | cons root rest ih =>
      intro st
      simp only [Scanner.runRoots]
      by_cases h1 : goTrimStr root = ""
      · simpa [h1] using ih st
      · rw [if_neg h1]
        by_cases h2 : fs.statOk (goTrimStr root)
        · rw [if_neg (by simpa using h2)]
          have hne := walkDirModel_no_error fs (fs.walk (goTrimStr root)) st
          rcases hw : Scanner.walkDirModel fs (fs.walk (goTrimStr root)) st with ⟨st2, e⟩
          rw [hw] at hne
          subst hne
          simpa using ih st2
        · rw [if_pos (by simpa using h2)]
          exact ih st

/-- One callback step either leaves the items unchanged or appends the
record of an error-free, non-directory, video-extension entry. -/
theorem walkFn_items (fs : Scanner.FSModel) (st : Scanner.ScanState)
    (ev : Scanner.WalkEvent) :
    (Scanner.walkFn fs st ev).1.items = st.items ∨
    ((Scanner.walkFn fs st ev).1.items = st.items ++ [Scanner.mkItemFromEvent fs ev] ∧
      ev.walkErr = none ∧ ev.isDir = false ∧
      Scanner.videoExtSet.contains (goToLower (Scanner.extOf ev.name.toList)).asString = true) := by
  simp only [Scanner.walkFn]
  by_cases h1 : ev.walkErr.isSome
  · left; rw [if_pos h1]
  · rw [if_neg h1]
    by_cases h2 : ev.isDir
    · left; rw [if_pos h2]
    · rw [if_neg h2]
      by_cases h3 : Scanner.videoExtSet.contains (goToLower (Scanner.extOf ev.name.toList)).asString
      · rw [if_neg (by simpa using h3)]
        by_cases h4 : st.pathSeen.contains (Scanner.absPathOf fs ev)
        · left; rw [if_pos h4]
        · right
          rw [if_neg h4]
          refine ⟨rfl, ?_, by simpa using h2, h3⟩
          cases he : ev.walkErr with
          | none => rfl
          | some e => rw [he] at h1; simp at h1
      · left; rw [if_pos (by simpa using h3)]

/-- Items collected by the walk of one root: either already present or
produced from an error-free video entry of that walk. -/
theorem walkDirModel_items (fs : Scanner.FSModel) :
    ∀ (evs : List Scanner.WalkEvent) (st : Scanner.ScanState)
      (it : Scanner.MediaItemRec),
      it ∈ (Scanner.walkDirModel fs evs st).1.items →
      it ∈ st.items ∨
        ∃ ev ∈ evs, ev.walkErr = none ∧ ev.isDir = false ∧
          Scanner.videoExtSet.contains (goToLower (Scanner.extOf ev.name.toList)).asString = true ∧
          it = Scanner.mkItemFromEvent fs ev := by
  intro evs
  induction evs with
  | nil => intro st it h; exact Or.inl h
  | cons ev tl ih =>
      intro st it h
      have hne := walkFn_no_error fs st ev
      rcases hw : Scanner.walkFn fs st ev with ⟨st2, e⟩
      rw [hw] at hne
      subst hne
      rw [Scanner.walkDirModel, hw] at h
      rcases ih st2 it h with hmem | ⟨ev2, hev2, hrest⟩
      · have hitems := walkFn_items fs st ev
        have hfst : (Scanner.walkFn fs st ev).1 = st2 := by rw [hw]
        rw [hfst] at hitems
        rcases hitems with heq | ⟨heq, hcond⟩
        · rw [heq] at hmem
          exact Or.inl hmem
        · rw [heq] at hmem
          rcases List.mem_append.mp hmem with hmem | hone
          · exact Or.inl hmem
          · rcases List.mem_singleton.mp hone with rfl
            exact Or.inr ⟨ev, List.mem_cons_self ev tl, hcond.1, hcond.2.1, hcond.2.2, rfl⟩
      · exact Or.inr ⟨ev2, List.mem_cons_of_mem ev hev2, hrest⟩

/-- Items collected over the roots: either initial or produced from an
error-free video entry of the walk of one of the roots. -/
theorem runRoots_items (fs : Scanner.FSModel) :
    ∀ (paths : List String) (st st2 : Scanner.ScanState),
      Scanner.runRoots fs paths st = Except.ok st2 →
      ∀ it ∈ st2.items,
        it ∈ st.items ∨
          ∃ root ∈ paths, ∃ ev ∈ fs.walk (goTrimStr root),
            ev.walkErr = none ∧ ev.isDir = false ∧
            Scanner.videoExtSet.contains (goToLower (Scanner.extOf ev.name.toList)).asString = true ∧
            it = Scanner.mkItemFromEvent fs ev := by
  intro paths
  induction paths with
  | nil =>
      intro st st2 h it hit
      simp only [Scanner.runRoots] at h
      injection h with h
      subst h
      exact Or.inl hit
  | cons root rest ih =>
      intro st st2 h it hit
      simp only [Scanner.runRoots] at h
      by_cases h1 : goTrimStr root = ""
      · rw [if_pos h1] at h
        rcases ih st st2 h it hit with hmem | ⟨r, hr, rest2⟩
        · exact Or.inl hmem
        · exact Or.inr ⟨r, List.mem_cons_of_mem root hr, rest2⟩
      · rw [if_neg h1] at h
        by_cases h2 : fs.statOk (goTrimStr root)
        · rw [if_neg (by simpa using h2)] at h
          have hne := walkDirModel_no_error fs (fs.walk (goTrimStr root)) st
          rcases hw : Scanner.walkDirModel fs (fs.walk (goTrimStr root)) st with ⟨stm, e⟩
          rw [hw] at hne
          subst hne
          rw [hw] at h
          rcases ih stm st2 h it hit with hmem | ⟨r, hr, rest2⟩
          · rcases walkDirModel_items fs (fs.walk (goTrimStr root)) st it (by rw [hw]; exact hmem) with
              hmem2 | ⟨ev, hev, hrest⟩
            · exact Or.inl hmem2
            · exact Or.inr ⟨root, List.mem_cons_self root rest, ev, hev, hrest⟩
          · exact Or.inr ⟨r, List.mem_cons_of_mem root hr, rest2⟩
        · rw [if_pos (by simpa using h2)] at h
          rcases ih st st2 h it hit with hmem | ⟨r, hr, rest2⟩
          · exact Or.inl hmem
          · exact Or.inr ⟨r, List.mem_cons_of_mem root hr, rest2⟩

/-- C10: for every filesystem state and every list of root paths the
scan returns without error: missing roots are skipped before walking and
the callback swallows every per-entry walk error, so the wrapped
per-root error branch of Run is unreachable. -/
theorem scannerRun_always_ok (fs : Scanner.FSModel) (paths : List String) :
    ∃ r, Scanner.Run fs paths = Except.ok r := by
  obtain ⟨st2, hst⟩ := runRoots_ok fs paths { items := [], pathSeen := [] }
  refine ⟨{ Items := Scanner.sortItemsByPath st2.items,
            ScannedVideoFiles := (Scanner.sortItemsByPath st2.items).length,
            MissingSubtitleFiles :=
              ((Scanner.sortItemsByPath st2.items).filter
                (fun it => ¬it.hasSubtitle)).length }, ?_⟩
  simp only [Scanner.Run, hst]

/-- C4 counterexample: root /a has an entry whose walk visit carries an
error, yet Run returns success (no wrapped error mentioning /a): the
error is not propagated, while the two good files of /a and the sibling
root file /b/y.mkv all appear in the result. -/
theorem scannerRun_walk_error_counterexample :
    (fsWalkErr.walk "/a").any (fun ev => ev.walkErr.isSome) = true ∧
    Scanner.Run fsWalkErr ["/a", "/b"] = Except.ok
      { Items :=
          [{ mediaType := "movie", title := "x", year := none, season := none,
             episode := none, filePath := "/a/x.mkv", hasSubtitle := false },
           { mediaType := "movie", title := "z", year := none, season := none,
             episode := none, filePath := "/a/z.mkv", hasSubtitle := false },
           { mediaType := "movie", title := "y", year := none, season := none,
             episode := none, filePath := "/b/y.mkv", hasSubtitle := false }],
        ScannedVideoFiles := 3, MissingSubtitleFiles := 3 } :=
  ⟨rfl, rfl⟩

/-- C4 amended: the scan never propagates a walk error (per-root errors
are swallowed exactly like per-file ones, making the wrapping branch
dead code), and every record in the result stems from an error-free
non-directory video entry of one of the roots: entries visited with a
walk error are merely skipped, and files of every root appear regardless
of errors in sibling roots. -/
theorem scannerRun_error_handling (fs : Scanner.FSModel) (paths : List String) :
    (∃ r, Scanner.Run fs paths = Except.ok r) ∧
    (∀ r, Scanner.Run fs paths = Except.ok r →
      ∀ it ∈ r.Items, ∃ root ∈ paths, ∃ ev ∈ fs.walk (goTrimStr root),
        ev.walkErr = none ∧ ev.isDir = false ∧
        Scanner.videoExtSet.contains (goToLower (Scanner.extOf ev.name.toList)).asString = true ∧
        it = Scanner.mkItemFromEvent fs ev) := by
  obtain ⟨st2, hst⟩ := runRoots_ok fs paths { items := [], pathSeen := [] }
  constructor
  · refine ⟨{ Items := Scanner.sortItemsByPath st2.items,
              ScannedVideoFiles := (Scanner.sortItemsByPath st2.items).length,
              MissingSubtitleFiles :=
                ((Scanner.sortItemsByPath st2.items).filter
                  (fun it => ¬it.hasSubtitle)).length }, ?_⟩
    simp only [Scanner.Run, hst]
  · intro r hr it hit
    simp only [Scanner.Run, hst] at hr
    rw [Except.ok.injEq] at hr
    rw [← hr] at hit
    have hmem : it ∈ st2.items := by
      have hperm := List.perm_insertionSort
        (fun a b : Scanner.MediaItemRec =>
          Scanner.charListLe a.filePath.toList b.filePath.toList = true) st2.items
      exact hperm.mem_iff.mp hit
    rcases runRoots_items fs paths { items := [], pathSeen := [] } st2 hst it hmem with
      hinit | hfound
    · simp at hinit
    · exact hfound

/-- Witness for the C4 amended theorem: the sibling-root file /b/y.mkv
of the concrete scan originates from an error-free video entry. -/
theorem scannerRun_error_handling_witness :
    ∃ root ∈ ["/a", "/b"], ∃ ev ∈ fsWalkErr.walk (goTrimStr root),
      ev.walkErr = none ∧ ev.isDir = false ∧
      Scanner.videoExtSet.contains (goToLower (Scanner.extOf ev.name.toList)).asString = true ∧
      ({ mediaType := "movie", title := "y", year := none, season := none,
         episode := none, filePath := "/b/y.mkv",
         hasSubtitle := false } : Scanner.MediaItemRec) = Scanner.mkItemFromEvent fsWalkErr ev :=
  (scannerRun_error_handling fsWalkErr ["/a", "/b"]).2
    { Items :=
        [{ mediaType := "movie", title := "x", year := none, season := none,
           episode := none, filePath := "/a/x.mkv", hasSubtitle := false },
         { mediaType := "movie", title := "z", year := none, season := none,
           episode := none, filePath := "/a/z.mkv", hasSubtitle := false },
         { mediaType := "movie", title := "y", year := none, season := none,
           episode := none, filePath := "/b/y.mkv", hasSubtitle := false }],
      ScannedVideoFiles := 3, MissingSubtitleFiles := 3 }
    rfl
    { mediaType := "movie", title := "y", year := none, season := none,
      episode := none, filePath := "/b/y.mkv", hasSubtitle := false }
    (by decide)

/-- The upsert statement changes the path multiset only by appending the
item path when it was absent. -/
theorem upsertOne_pathsOf (now : ℕ) (db : List Db.MediaRow) (item : Db.MediaItemIn) :
    Db.pathsOf (Db.upsertOne now db item) =
      if Db.mediaExistsByPath db item.filePath then Db.pathsOf db
      else Db.pathsOf db ++ [item.filePath] := by
  simp only [Db.upsertOne]
  by_cases h : Db.mediaExistsByPath db item.filePath
  · rw [if_pos h, if_pos h]
    simp only [Db.pathsOf, List.map_map]
    apply List.map_congr_left
    intro r _
    by_cases hr : r.filePath = item.filePath
    · simp [hr]
    · simp [hr]
  · rw [if_neg h, if_neg h]
    simp [Db.pathsOf]

/-- Row existence by path is membership in the path list. -/
theorem mediaExistsByPath_iff (db : List Db.MediaRow) (p : String) :
    Db.mediaExistsByPath db p = true ↔ p ∈ Db.pathsOf db := by
  simp only [Db.mediaExistsByPath, Db.pathsOf, List.any_eq_true, List.mem_map,
    decide_eq_true_eq]

/-- After the upsert statement the item path is present. -/
theorem upsertOne_exists_self (now : ℕ) (db : List Db.MediaRow) (item : Db.MediaItemIn) :
    Db.mediaExistsByPath (Db.upsertOne now db item) item.filePath = true := by
  rw [mediaExistsByPath_iff, upsertOne_pathsOf]
  by_cases h : Db.mediaExistsByPath db item.filePath
  · rw [if_pos h]
    exact (mediaExistsByPath_iff db item.filePath).mp h
  · rw [if_neg h]
    simp

/-- The upsert statement never removes a path. -/
theorem upsertOne_exists_mono (now : ℕ) (db : List Db.MediaRow) (item : Db.MediaItemIn)
    (p : String) (h : Db.mediaExistsByPath db p = true) :
    Db.mediaExistsByPath (Db.upsertOne now db item) p = true := by
  rw [mediaExistsByPath_iff, upsertOne_pathsOf]
  have hp := (mediaExistsByPath_iff db p).mp h
  by_cases he : Db.mediaExistsByPath db item.filePath
  · rw [if_pos he]; exact hp
  · rw [if_neg he]; exact List.mem_append_left _ hp

/-- When the item path already existed the upsert statement leaves the
path list unchanged. -/
theorem upsertOne_exists_of_existed (now : ℕ) (db : List Db.MediaRow)
    (item : Db.MediaItemIn) (h : Db.mediaExistsByPath db item.filePath = true)
    (p : String) :
    Db.mediaExistsByPath (Db.upsertOne now db item) p = Db.mediaExistsByPath db p := by
  have hpaths := upsertOne_pathsOf now db item
  rw [if_pos h] at hpaths
  cases hb : Db.mediaExistsByPath db p with
  | true =>
      rw [mediaExistsByPath_iff, hpaths]
      exact (mediaExistsByPath_iff db p).mp hb
  | false =>
      by_contra hne
      have : Db.mediaExistsByPath (Db.upsertOne now db item) p = true := by
        cases hx : Db.mediaExistsByPath (Db.upsertOne now db item) p with
        | true => rfl
        | false => rw [hx] at hne; exact absurd rfl hne
      rw [mediaExistsByPath_iff, hpaths, ← mediaExistsByPath_iff] at this
      rw [hb] at this
      exact Bool.false_ne_true this

/-- The upsert statement preserves path uniqueness. -/
theorem upsertOne_nodup (now : ℕ) (db : List Db.MediaRow) (item : Db.MediaItemIn)
    (h : (Db.pathsOf db).Nodup) :
    (Db.pathsOf (Db.upsertOne now db item)).Nodup := by
  rw [upsertOne_pathsOf]
  by_cases he : Db.mediaExistsByPath db item.filePath
  · rw [if_pos he]; exact h
  · rw [if_neg he]
    have hnot : item.filePath ∉ Db.pathsOf db := by
      intro hmem
      exact he ((mediaExistsByPath_iff db item.filePath).mpr hmem)
    simp [List.nodup_append, h, hnot]

/-- The upsert statement keeps a successor of every existing row,
with the same path, id and creation time. -/
theorem upsertOne_keep (now : ℕ) (db : List Db.MediaRow) (item : Db.MediaItemIn) :
    ∀ r ∈ db, ∃ r2 ∈ Db.upsertOne now db item,
      r2.filePath = r.filePath ∧ r2.id = r.id ∧ r2.createdAt = r.createdAt := by
  intro r hr
  simp only [Db.upsertOne]
  by_cases he : Db.mediaExistsByPath db item.filePath
  · rw [if_pos he]
    by_cases hp : r.filePath = item.filePath
    · refine ⟨_, List.mem_map_of_mem _ hr, ?_⟩
      simp [hp]
    · refine ⟨_, List.mem_map_of_mem _ hr, ?_⟩
      simp [hp]
  · rw [if_neg he]
    exact ⟨r, List.mem_append_left _ hr, rfl, rfl, rfl⟩

/-- The loop never removes a path. -/
theorem upsertLoop_exists_mono (now : ℕ) :
    ∀ (items : List Db.MediaItemIn) (db : List Db.MediaRow) (ins upd : ℕ) (p : String),
      Db.mediaExistsByPath db p = true →
      Db.mediaExistsByPath (Db.upsertLoop now items db ins upd).1 p = true := by
  intro items
  induction items with
  | nil => intro db ins upd p h; exact h
  | cons item rest ih =>
      intro db ins upd p h
      simp only [Db.upsertLoop]
      exact ih _ _ _ p (upsertOne_exists_mono now db item p h)

/-- After the loop every processed item path is present. -/
theorem upsertLoop_items_present (now : ℕ) :
    ∀ (items : List Db.MediaItemIn) (db : List Db.MediaRow) (ins upd : ℕ),
      ∀ it ∈ items,
        Db.mediaExistsByPath (Db.upsertLoop now items db ins upd).1 it.filePath = true := by
  intro items
  induction items with
  | nil => intro db ins upd it h; simp at h
  | cons item rest ih =>
      intro db ins upd it h
      rcases List.mem_cons.mp h with rfl | hmem
      · simp only [Db.upsertLoop]
        exact upsertLoop_exists_mono now rest _ _ _ _ (upsertOne_exists_self now db it)
      · simp only [Db.upsertLoop]
        exact ih _ _ _ it hmem

/-- When every item path is already present, the loop counts no insert
and one update per item. -/
theorem upsertLoop_counts_present (now : ℕ) :
    ∀ (items : List Db.MediaItemIn) (db : List Db.MediaRow) (ins upd : ℕ),
      (∀ it ∈ items, Db.mediaExistsByPath db it.filePath = true) →
      (Db.upsertLoop now items db ins upd).2.1 = ins ∧
      (Db.upsertLoop now items db ins upd).2.2 = upd + items.length := by
  intro items
  induction items with
  | nil => intro db ins upd _; exact ⟨rfl, rfl⟩
  | cons item rest ih =>
      intro db ins upd hall
      have hhead : Db.mediaExistsByPath db item.filePath = true :=
        hall item (List.mem_cons_self item rest)
      have hrest : ∀ it ∈ rest,
          Db.mediaExistsByPath (Db.upsertOne now db item) it.filePath = true := by
        intro it hmem
        rw [upsertOne_exists_of_existed now db item hhead]
        exact hall it (List.mem_cons_of_mem item hmem)
      simp only [Db.upsertLoop, hhead, if_pos]
      obtain ⟨h1, h2⟩ := ih (Db.upsertOne now db item) ins (upd + 1) hrest
      refine ⟨h1, ?_⟩
      rw [h2]
      simp [List.length_cons]
      omega

/-- The loop preserves path uniqueness. -/
theorem upsertLoop_nodup (now : ℕ) :
    ∀ (items : List Db.MediaItemIn) (db : List Db.MediaRow) (ins upd : ℕ),
      (Db.pathsOf db).Nodup →
      (Db.pathsOf (Db.upsertLoop now items db ins upd).1).Nodup := by
  intro items
  induction items with
  | nil => intro db ins upd h; exact h
  | cons item rest ih =>
      intro db ins upd h
      simp only [Db.upsertLoop]
      exact ih _ _ _ (upsertOne_nodup now db item h)

/-- The loop keeps a successor of every initial row. -/
theorem upsertLoop_keep (now : ℕ) :
    ∀ (items : List Db.MediaItemIn) (db : List Db.MediaRow) (ins upd : ℕ),
      ∀ r ∈ db, ∃ r2 ∈ (Db.upsertLoop now items db ins upd).1,
        r2.filePath = r.filePath ∧ r2.id = r.id ∧ r2.createdAt = r.createdAt := by
  intro items
  induction items with
  | nil => intro db ins upd r hr; exact ⟨r, hr, rfl, rfl, rfl⟩
  | cons item rest ih =>
      intro db ins upd r hr
      obtain ⟨r2, hr2, hpath, hid, hcreated⟩ := upsertOne_keep now db item r hr
      simp only [Db.upsertLoop]
      obtain ⟨r3, hr3, hpath2, hid2, hcreated2⟩ := ih (Db.upsertOne now db item) _ _ r2 hr2
      exact ⟨r3, hr3, hpath2.trans hpath, hid2.trans hid, hcreated2.trans hcreated⟩

/-- C5: for every identity record list, UpsertMediaItems preserves path
uniqueness (never a second row for the same path), keeps a row with the
same path, id and creation time for every pre-existing row (never a
deletion), and re-upserting the identical list yields an inserted count
of zero with an updated count equal to the full list length. -/
theorem upsertMediaItems_spec (now now2 : ℕ) (db : List Db.MediaRow)
    (items : List Db.MediaItemIn) (hnd : (Db.pathsOf db).Nodup) :
    (Db.pathsOf (Db.UpsertMediaItems now db items).1).Nodup
  ∧ (∀ r ∈ db, ∃ r2 ∈ (Db.UpsertMediaItems now db items).1,
      r2.filePath = r.filePath ∧ r2.id = r.id ∧ r2.createdAt = r.createdAt)
  ∧ (Db.UpsertMediaItems now2 (Db.UpsertMediaItems now db items).1 items).2.1 = 0
  ∧ (Db.UpsertMediaItems now2 (Db.UpsertMediaItems now db items).1 items).2.2 =
      items.length := by
  have hpresent : ∀ it ∈ items,
      Db.mediaExistsByPath (Db.UpsertMediaItems now db items).1 it.filePath = true :=
    upsertLoop_items_present now items db 0 0
  have hcounts := upsertLoop_counts_present now2 items
    (Db.UpsertMediaItems now db items).1 0 0 hpresent
  exact ⟨upsertLoop_nodup now items db 0 0 hnd,
    upsertLoop_keep now items db 0 0,
    hcounts.1,
    by
      have h2 := hcounts.2
      simp only [Db.UpsertMediaItems] at h2 ⊢
      rw [h2]
      omega⟩

/-- Witness for C5: on an initially empty table, upserting one sample
record twice counts zero inserts and one update on the second pass. -/
theorem upsertMediaItems_spec_witness :
    (Db.UpsertMediaItems 1 (Db.UpsertMediaItems 0 [] [Db.sampleItem]).1 [Db.sampleItem]).2.1 = 0 ∧
    (Db.UpsertMediaItems 1 (Db.UpsertMediaItems 0 [] [Db.sampleItem]).1 [Db.sampleItem]).2.2 =
      [Db.sampleItem].length :=
  ⟨(upsertMediaItems_spec 0 1 [] [Db.sampleItem] (by decide)).2.2.1,
   (upsertMediaItems_spec 0 1 [] [Db.sampleItem] (by decide)).2.2.2⟩

/-- Decoding inverts the alphabet map on six-bit groups. -/
theorem b64Index_b64Char : ∀ n, n < 64 → b64Index (b64Char n) = some n := by
  decide

/-- Alphabet characters are never the padding character. -/
theorem b64Char_ne_pad : ∀ n, n < 64 → ¬b64Char n = '=' := by
  decide

/-- base64 decode inverts encode on byte lists. -/
theorem b64_roundtrip : ∀ (l : List ℕ), (∀ b ∈ l, b < 256) →
    b64DecodeChars (b64EncodeChars l) = some l
  | [], _ => rfl
  | [b1], h => by
      have hb1 : b1 < 256 := h b1 (by simp)
      have h1 : b1 / 4 < 64 := by omega
      have h2 : b1 % 4 * 16 < 64 := by omega
      simp only [b64EncodeChars, b64DecodeChars]
      rw [if_pos (by simp), b64Index_b64Char _ h1, b64Index_b64Char _ h2]
      simp only [Option.some.injEq, List.cons.injEq, and_true]
      omega
  | [b1, b2], h => by
      have hb1 : b1 < 256 := h b1 (by simp)
      have hb2 : b2 < 256 := h b2 (by simp)
      have h1 : b1 / 4 < 64 := by omega
      have h2 : b1 % 4 * 16 + b2 / 16 < 64 := by omega
      have h3 : b2 % 16 * 4 < 64 := by omega
      simp only [b64EncodeChars, b64DecodeChars]
      rw [if_neg (fun hc => b64Char_ne_pad _ h3 hc.1),
        if_pos (by simp),
        b64Index_b64Char _ h1, b64Index_b64Char _ h2, b64Index_b64Char _ h3]
      simp only [Option.some.injEq, List.cons.injEq, and_true]
      constructor
      · omega
      · omega
  | b1 :: b2 :: b3 :: rest, h => by
      have hb1 : b1 < 256 := h b1 (by simp)
      have hb2 : b2 < 256 := h b2 (by simp)
      have hb3 : b3 < 256 := h b3 (by simp)
      have h1 : b1 / 4 < 64 := by omega
      have h2 : b1 % 4 * 16 + b2 / 16 < 64 := by omega
      have h3 : b2 % 16 * 4 + b3 / 64 < 64 := by omega
      have h4 : b3 % 64 < 64 := by omega
      have ih := b64_roundtrip rest (fun b hb => h b (by simp [hb]))
      simp only [b64EncodeChars, b64DecodeChars]
      rw [if_neg (fun hc => b64Char_ne_pad _ h3 hc.1),
        if_neg (fun hc => b64Char_ne_pad _ h4 hc.1),
        b64Index_b64Char _ h1, b64Index_b64Char _ h2, b64Index_b64Char _ h3,
        b64Index_b64Char _ h4, ih]
      simp only [Option.some.injEq, List.cons.injEq, and_true]
      refine ⟨by omega, by omega, by omega⟩

/-- Alphabet characters are never whitespace. -/
theorem goIsSpace_b64Char (n : ℕ) : goIsSpace (b64Char n) = false := by
  by_cases h : n < 64
  · revert h
    revert n
    decide
  · have hlen : b64Chars.length ≤ n := by
      have : b64Chars.length = 64 := rfl
      omega
    unfold b64Char
    rw [List.getD_eq_default _ _ hlen]
    decide

/-- Encoded base64 text contains no whitespace. -/
theorem b64Encode_nonspace : ∀ (l : List ℕ) (c : Char), c ∈ b64EncodeChars l →
    goIsSpace c = false
  | [], c, h => by simp [b64EncodeChars] at h
  | [b1], c, h => by
      simp only [b64EncodeChars, List.mem_cons, List.mem_singleton] at h
      rcases h with rfl | rfl | rfl | h
      · exact goIsSpace_b64Char _
      · exact goIsSpace_b64Char _
      · rfl
      · simp at h
        rw [h]
        rfl
  | [b1, b2], c, h => by
      simp only [b64EncodeChars, List.mem_cons, List.mem_singleton] at h
      rcases h with rfl | rfl | rfl | h
      · exact goIsSpace_b64Char _
      · exact goIsSpace_b64Char _
      · exact goIsSpace_b64Char _
      · simp at h
        rw [h]
        rfl
  | b1 :: b2 :: b3 :: rest, c, h => by
      simp only [b64EncodeChars, List.mem_cons] at h
      rcases h with rfl | rfl | rfl | rfl | h
      · exact goIsSpace_b64Char _
      · exact goIsSpace_b64Char _
      · exact goIsSpace_b64Char _
      · exact goIsSpace_b64Char _
      · exact b64Encode_nonspace rest c h

/-- dropWhile is the identity when no element satisfies the predicate. -/
theorem dropWhile_eq_self_of_all (p : Char → Bool) (l : List Char)
    (h : ∀ c ∈ l, p c = false) : l.dropWhile p = l := by
  cases l with
  | nil => rfl
  | cons a tl =>
      rw [List.dropWhile_cons, if_neg]
      rw [h a (List.mem_cons_self a tl)]
      simp

/-- TrimSpace is the identity on whitespace-free text. -/
theorem goTrim_eq_self (l : List Char) (h : ∀ c ∈ l, goIsSpace c = false) :
    goTrim l = l := by
  unfold goTrim
  rw [dropWhile_eq_self_of_all _ _ h]
  rw [dropWhile_eq_self_of_all _ _ (fun c hc => h c (List.mem_reverse.mp hc))]
  exact List.reverse_reverse l

/-- A list is a prefix of itself followed by anything. -/
theorem isPrefixOf_append_self (p rest : List Char) : p.isPrefixOf (p ++ rest) = true := by
  induction p with
  | nil => simp [List.isPrefixOf]
  | cons a tl ih => simp [List.isPrefixOf, ih]

/-- C6: encrypting any plaintext bytes with the empty deployment secret
produces the blob "plain:" + base64(plaintext), and the plain-blob
decoding path recovers byte-identical plaintext from that blob. -/
theorem encrypt_plain_roundtrip (pt : List ℕ) (h : ∀ b ∈ pt, b < 256) :
    Server.encrypt pt "" = some ("plain:".toList ++ b64EncodeChars pt) ∧
    Server.decodePlainBlob ("plain:".toList ++ b64EncodeChars pt) = some pt := by
  constructor
  · rfl
  · have hplain : ∀ c ∈ "plain:".toList, goIsSpace c = false := by decide
    have hns : ∀ c ∈ "plain:".toList ++ b64EncodeChars pt, goIsSpace c = false := by
      intro c hc
      rcases List.mem_append.mp hc with hp | he
      · exact hplain c hp
      · exact b64Encode_nonspace pt c he
    simp only [Server.decodePlainBlob]
    rw [goTrim_eq_self _ hns, if_pos (isPrefixOf_append_self _ _), List.drop_left]
    exact b64_roundtrip pt h

/-- Witness for C6 at a concrete two-byte plaintext. -/
theorem encrypt_plain_roundtrip_witness :
    Server.decodePlainBlob ("plain:".toList ++ b64EncodeChars [104, 105]) = some [104, 105] :=
  (encrypt_plain_roundtrip [104, 105] (by decide)).2

/-- Replacing the candidate set installs exactly the given list for the
media item. -/
theorem candidatesFor_replace_self (mid : ℤ) (cs : List SubtitleCandidate)
    (db : List (ℤ × SubtitleCandidate)) :
    Db.candidatesFor mid (Db.ReplaceSubtitleCandidates mid cs db) = cs := by
  simp only [Db.candidatesFor, Db.ReplaceSubtitleCandidates, List.filter_append]
  have h1 : (db.filter (fun row => ¬row.1 = mid)).filter (fun row => row.1 = mid) = [] := by
    rw [List.filter_filter]
    apply List.filter_eq_nil_iff.mpr
    intro row _
    by_cases h : row.1 = mid <;> simp [h]
  have h2 : (cs.map (fun c => (mid, c))).filter
      (fun row : ℤ × SubtitleCandidate => row.1 = mid) = cs.map (fun c => (mid, c)) := by
    apply List.filter_eq_self.mpr
    intro row hrow
    rcases List.mem_map.mp hrow with ⟨c, _, rfl⟩
    simp
  rw [h1, h2]
  simp [List.map_map]

/-- Replacing the candidate set of one media item leaves every other
media item untouched. -/
theorem candidatesFor_replace_other (mid m : ℤ) (h : ¬m = mid)
    (cs : List SubtitleCandidate) (db : List (ℤ × SubtitleCandidate)) :
    Db.candidatesFor m (Db.ReplaceSubtitleCandidates mid cs db) =
      Db.candidatesFor m db := by
  simp only [Db.candidatesFor, Db.ReplaceSubtitleCandidates, List.filter_append]
  have h1 : (cs.map (fun c => (mid, c))).filter
      (fun row : ℤ × SubtitleCandidate => row.1 = m) = [] := by
    apply List.filter_eq_nil_iff.mpr
    intro row hrow
    rcases List.mem_map.mp hrow with ⟨c, _, rfl⟩
    simp
    intro he
    exact h he.symm
  have h2 : (db.filter (fun row => ¬row.1 = mid)).filter (fun row => row.1 = m) =
      db.filter (fun row => row.1 = m) := by
    rw [List.filter_filter]
    apply List.filter_congr
    intro row _
    by_cases hr : row.1 = m
    · have : ¬row.1 = mid := by rw [hr]; exact h
      simp [hr, this, h]
    · simp [hr]
  rw [h1, h2]
  simp

/-- C2: after every search call the persisted candidate set of the media
item is exactly the sorted concatenation of the successful results of
that call — a permutation of the union of the successful providers'
lists, independent of any previously persisted candidates — and the
replacement leaves every other media item's candidates untouched
(delete-then-insert semantics). -/
theorem searchAndPersist_replace_spec (results : List Server.ProviderResult)
    (mediaID : ℤ) (db : List (ℤ × SubtitleCandidate)) :
    Db.candidatesFor mediaID (Server.searchAndPersist results mediaID db).1 =
      (Server.searchAndPersist results mediaID db).2.1
  ∧ (Server.searchAndPersist results mediaID db).2.1.Perm
      (Server.collectResults results).1
  ∧ (∀ m, ¬m = mediaID →
      Db.candidatesFor m (Server.searchAndPersist results mediaID db).1 =
        Db.candidatesFor m db) := by
  refine ⟨?_, ?_, ?_⟩
  · simp only [Server.searchAndPersist]
    exact candidatesFor_replace_self mediaID _ db
  · simp only [Server.searchAndPersist, Server.sortByScoreDesc]
    exact List.perm_insertionSort _ _
  · intro m hm
    simp only [Server.searchAndPersist]
    exact candidatesFor_replace_other mediaID m hm _ db

/-- Witness for C2: the concrete two-provider fan-in leaves the
candidates of the unrelated media item 2 unchanged. -/
theorem searchAndPersist_replace_spec_witness :
    Db.candidatesFor 2 (Server.searchAndPersist c2Results 1 c1DB).1 =
      Db.candidatesFor 2 c1DB :=
  (searchAndPersist_replace_spec c2Results 1 c1DB).2.2 2 (by decide)

/-- C1 counterexample: searching a movie media item whose title is
whitespace-only is not rejected up front.  The credentialed assrt
provider is invoked, fails inside Search with "empty search query", the
per-provider error map gets that entry, and the empty merged list is
persisted: the stale candidate of media item 1 is deleted while media
item 2 keeps its row. -/
theorem handleSearch_empty_title_counterexample :
    goTrimStr "   " = "" ∧
    (Server.handleSearchSubtitles c1Oracle c1Decrypt "" ["zh-cn"] 1 "   " "movie"
      none none none "/m/a.mkv" c1DB).2.2 = [("assrt", "empty search query")] ∧
    (Server.handleSearchSubtitles c1Oracle c1Decrypt "" ["zh-cn"] 1 "   " "movie"
      none none none "/m/a.mkv" c1DB).2.1 = [] ∧
    Db.candidatesFor 1 c1DB = [staleCand] ∧
    Db.candidatesFor 1 (Server.handleSearchSubtitles c1Oracle c1Decrypt "" ["zh-cn"]
      1 "   " "movie" none none none "/m/a.mkv" c1DB).1 = [] :=
  ⟨rfl, rfl, rfl, rfl, rfl⟩

/-- C1 amended: a search on a movie item with a whitespace-only title
and no year is not rejected before the providers run.  With assrt
credentialed (non-empty token) and opensubtitles unconfigured (empty
credential map), the assrt Search call is invoked and fails with "empty
search query" before any catalog request, that failure is the sole entry
of the per-provider error map, the merged list is empty, and the empty
set is still persisted, replacing any stale candidates of the media
item. -/
theorem handleSearch_empty_title_spec
    (oracle : Server.SearchOracle)
    (decryptFn : String → String → Except String String) (secret : String)
    (languagePriority : List String) (mediaID : ℤ) (title : String)
    (season episode : Option ℤ) (filePath : String)
    (db : List (ℤ × SubtitleCandidate))
    (htitle : goTrimStr title = "")
    (ab : String) (am : List (String × String))
    (hab : oracle.assrtBlob = Except.ok ab)
    (ham : Server.parseCredentialBlob oracle.jsonParse decryptFn ab secret "assrt" =
      Except.ok am)
    (htok : ¬goTrimStr (lookupField am "token") = "")
    (ob : String)
    (hob : oracle.osBlob = Except.ok ob)
    (hom : Server.parseCredentialBlob oracle.jsonParse decryptFn ob secret "opensubtitles" =
      Except.ok []) :
    (Server.handleSearchSubtitles oracle decryptFn secret languagePriority mediaID
      title "movie" none season episode filePath db).2.2 =
        [("assrt", "empty search query")] ∧
    (Server.handleSearchSubtitles oracle decryptFn secret languagePriority mediaID
      title "movie" none season episode filePath db).2.1 = [] ∧
    Db.candidatesFor mediaID (Server.handleSearchSubtitles oracle decryptFn secret
      languagePriority mediaID title "movie" none season episode filePath db).1 = [] := by
  have hlen : ¬am.length = 0 := by
    intro h0
    rcases List.length_eq_zero.mp h0 with rfl
    exact htok rfl
  have hq : Assrt.query
      { mediaID := mediaID, title := title, mediaType := "movie", year := none,
        season := season, episode := episode, filePath := filePath, limit := 20 } = "" := by
    simp only [Assrt.query]
    simp [htitle]
  have hsearch : Assrt.Search languagePriority am
      { mediaID := mediaID, title := title, mediaType := "movie", year := none,
        season := season, episode := episode, filePath := filePath, limit := 20 }
      oracle.assrtHTTP = Except.error "empty search query" := by
    simp only [Assrt.Search]
    rw [if_neg htok, if_pos hq]
  have hassrt : Server.runOneProvider "assrt" oracle.assrtBlob oracle.jsonParse
      decryptFn secret
      (fun cred => Assrt.Search languagePriority cred
        { mediaID := mediaID, title := title, mediaType := "movie", year := none,
          season := season, episode := episode, filePath := filePath, limit := 20 }
        oracle.assrtHTTP) =
      [{ name := "assrt", candidates := [], err := some "empty search query" }] := by
    rw [hab]
    simp only [Server.runOneProvider, ham, hsearch]
    rw [if_neg hlen]
  have hos : Server.runOneProvider "opensubtitles" oracle.osBlob oracle.jsonParse
      decryptFn secret
      (fun cred => OpenSubtitles.Search languagePriority cred
        { mediaID := mediaID, title := title, mediaType := "movie", year := none,
          season := season, episode := episode, filePath := filePath, limit := 20 }
        oracle.osLogin oracle.osHTTP) = [] := by
    rw [hob]
    simp only [Server.runOneProvider, hom]
    rfl
  have hrun : Server.runProviders oracle decryptFn secret languagePriority
      { mediaID := mediaID, title := title, mediaType := "movie", year := none,
        season := season, episode := episode, filePath := filePath, limit := 20 } =
      [{ name := "assrt", candidates := [], err := some "empty search query" }] := by
    simp only [Server.runProviders, hassrt, hos]
    rfl
  have hmain : Server.handleSearchSubtitles oracle decryptFn secret languagePriority
      mediaID title "movie" none season episode filePath db =
      Server.searchAndPersist
        [{ name := "assrt", candidates := [], err := some "empty search query" }]
        mediaID db := by
    simp only [Server.handleSearchSubtitles, hrun]
  rw [hmain]
  refine ⟨rfl, rfl, ?_⟩
  simp only [Server.searchAndPersist]
  exact candidatesFor_replace_self mediaID _ db

/-- Witness for the C1 amended theorem at the concrete legacy-token
oracle. -/
theorem handleSearch_empty_title_spec_witness :
    (Server.handleSearchSubtitles c1Oracle c1Decrypt "" ["zh-cn"] 5 "  " "movie"
      none none none "/x.mkv" []).2.1 = [] :=
  (handleSearch_empty_title_spec c1Oracle c1Decrypt "" ["zh-cn"] 5 "  " none none
    "/x.mkv" [] (by decide) "legacytoken" [("token", "legacytoken")] rfl rfl
    (by decide) "" rfl rfl).2.1

/-- C8 counterexample: the assrt Search with a requested cap of five
returns all six candidates carried by the catalog response — the
returned list is not capped client-side. -/
theorem assrt_search_cap_counterexample :
    c8Input.limit = 5 ∧
    ((Assrt.Search ["zh-cn"] [("token", "t")] c8Input (Except.ok c8Resp)).toOption.map
      List.length) = some 6 ∧
    ¬(6 : ℤ) ≤ c8Input.limit :=
  ⟨rfl, rfl, by decide⟩

/-- C8 amended: the opensubtitles Search caps the returned list at the
positive requested count regardless of how many items the response
carries, while the assrt Search returns exactly one candidate per
response item, relying only on the cnt request parameter to limit the
catalog response. -/
theorem provider_search_cap_spec :
    (∀ (pr : List String) (cred : List (String × String)) (input : SearchInput)
        (loginR : Except String String) (resp : OpenSubtitles.SearchResponse)
        (out : List SubtitleCandidate), 0 < input.limit →
        OpenSubtitles.Search pr cred input loginR (Except.ok resp) = Except.ok out →
        (out.length : ℤ) ≤ input.limit)
  ∧ (∀ (pr : List String) (cred : List (String × String)) (input : SearchInput)
        (resp : Assrt.SearchResponse) (out : List SubtitleCandidate),
        Assrt.Search pr cred input (Except.ok resp) = Except.ok out →
        out.length = resp.subs.length) := by
  constructor
  · intro pr cred input loginR resp out hpos h
    simp only [OpenSubtitles.Search] at h
    by_cases h1 : goTrimStr (lookupField cred "api_key") = ""
    · rw [if_pos h1] at h
      exact absurd h (by simp)
    · rw [if_neg h1] at h
      by_cases h2 : OpenSubtitles.query input = ""
      · rw [if_pos h2] at h
        exact absurd h (by simp)
      · rw [if_neg h2] at h
        simp only [Except.ok.injEq] at h
        subst h
        rw [List.length_map]
        by_cases h3 : (if input.limit ≤ 0 then 20 else input.limit) <
            (resp.data.length : ℤ)
        · rw [if_pos h3, List.length_take]
          have hle : ¬input.limit ≤ 0 := by omega
          rw [if_neg hle] at h3 ⊢
          have : (input.limit.toNat : ℤ) = input.limit := Int.toNat_of_nonneg (by omega)
          have hmin : min input.limit.toNat resp.data.length ≤ input.limit.toNat :=
            Nat.min_le_left _ _
          omega
        · rw [if_neg h3]
          have hle : ¬input.limit ≤ 0 := by omega
          rw [if_neg hle] at h3
          omega
  · intro pr cred input resp out h
    simp only [Assrt.Search] at h
    by_cases h1 : goTrimStr (lookupField cred "token") = ""
    · rw [if_pos h1] at h
      exact absurd h (by simp)
    · rw [if_neg h1] at h
      by_cases h2 : Assrt.query input = ""
      · rw [if_pos h2] at h
        exact absurd h (by simp)
      · rw [if_neg h2] at h
        by_cases h3 : resp.status = 0
        · rw [if_neg (by simpa using h3)] at h
          simp only [Except.ok.injEq] at h
          subst h
          exact List.length_map _ _
        · rw [if_pos (by simpa using h3)] at h
          exact absurd h (by simp)

/-- Witness for the C8 amended theorem: the concrete opensubtitles run
with four response items against a cap of three stays within the cap. -/
theorem provider_search_cap_spec_witness :
    (c8OutOS.length : ℤ) ≤ c8InputOS.limit :=
  provider_search_cap_spec.1 ["zh-cn"] [("api_key", "k")] c8InputOS
    (Except.ok "tok") c8RespOS c8OutOS (by decide) rfl
